import Mathlib

/-!
Shallow embedding of the 3D viewer model core (`model.h` / `model.cpp`,
`tranformation.h` / `tranformation.cpp`, namespace `s21`).

Numeric model: the C++ `double` coordinates are modelled by exact
arithmetic — `ℚ` for the parsing/normalization pipeline (decimal literals
are exactly representable) and `ℝ` for the trigonometric transforms.
`sscanf`'s `%lf` / `%d` conversions are modelled for decimal literals
(sign, digits, optional fraction, optional exponent with `strtod`-style
backtracking); hexadecimal floats and `inf` / `nan` forms are outside the
model.
-/

set_option maxRecDepth 100000

namespace S21

/-- `enum error_list`: kNoError. -/
def kNoError : Int := 0

/-- `enum error_list`: kFileWrongExtension. -/
def kFileWrongExtension : Int := 1

/-- `enum error_list`: kFailedToOpen. -/
def kFailedToOpen : Int := 2

/-- `enum error_list`: kIncorrectData. -/
def kIncorrectData : Int := 3

/-- `Model::kNormalizationThreshold = 10.0`. -/
def kNormalizationThreshold : ℚ := 10

/-- `Model::kMinObjFilenameLength = 5`. -/
def kMinObjFilenameLength : Nat := 5

/-- The state owned by `s21::Model`: `filename_`, `vertex_coord_`,
`vertex_index_`, `error_code_`.  The coordinate type is a parameter so the
parser (exact `ℚ`) and the trigonometric transforms (`ℝ`) share one state
shape. -/
structure Model (α : Type) where
  filename : List Char
  vertex_coord : List α
  vertex_index : List Int
  error_code : Int
deriving DecidableEq

/-- A freshly constructed `Model` (all vectors empty, `error_code_{kNoError}`). -/
def initModel : Model ℚ := ⟨[], [], [], kNoError⟩

/-- The six characters accepted by C `isspace`. -/
def isSpaceChar (c : Char) : Bool :=
  c == ' ' || c == '\t' || c == '\n' || c == '\x0b' || c == '\x0c' || c == '\r'

/-- Numeric value of a decimal digit character. -/
def digitVal (c : Char) : Nat := c.toNat - '0'.toNat

/-- Value of a list of decimal digit characters, most significant first. -/
def natVal (ds : List Char) : Nat := ds.foldl (fun n c => 10 * n + digitVal c) 0

/-- Digits of an exponent after `e`/`E` and an optional sign.  If no digit
follows, `strtod` backtracks: nothing of `orig` (the input starting at the
`e`) is consumed. -/
def scanExpDigits (orig : List Char) (sign : Int) (r : List Char) :
    Int × List Char :=
  let ds := r.takeWhile Char.isDigit
  if ds.isEmpty then (0, orig)
  else (sign * (natVal ds : Int), r.dropWhile Char.isDigit)

/-- Exponent part after the leading `e`/`E` has been seen. -/
def scanExpAfterE (orig : List Char) (rest : List Char) : Int × List Char :=
  match rest with
  | [] => scanExpDigits orig 1 []
  | c :: r =>
    if c = '+' then scanExpDigits orig 1 r
    else if c = '-' then scanExpDigits orig (-1) r
    else scanExpDigits orig 1 (c :: r)

/-- Optional exponent of a float literal (returns exponent `0` and the
unchanged input when none is present). -/
def scanExp (s : List Char) : Int × List Char :=
  match s with
  | [] => (0, [])
  | c :: rest =>
    if c = 'e' ∨ c = 'E' then scanExpAfterE (c :: rest) rest else (0, c :: rest)

/-- The value `(ip + fp / 10 ^ fl) * 10 ^ e` of a decimal literal with
integer part `ip`, fraction digits `fp` (of count `fl`) and exponent `e`,
assembled as a single fraction.  (`mkRat` keeps the definition
kernel-computable; `floatVal_eq` below shows it equals the textbook
formula.) -/
def floatVal (ip fp fl : Nat) (e : Int) : ℚ :=
  mkRat ((ip * 10 ^ fl + fp : Nat) * 10 ^ e.toNat) (10 ^ fl * 10 ^ (-e).toNat)

/-- The fraction-free tail of an unsigned float literal: requires a
nonempty integer part, then an optional exponent. -/
def scanNoFraction (ip : List Char) (r1 : List Char) : Option (ℚ × List Char) :=
  if ip.isEmpty then none
  else
    let e := scanExp r1
    some (floatVal (natVal ip) 0 0 e.1, e.2)

/-- Unsigned decimal float literal: digits, optional `.` and fraction
digits (at least one digit overall), optional exponent.  Returns the value
and the unconsumed remainder, or `none` if no literal starts here. -/
def scanUnsignedFloat (s : List Char) : Option (ℚ × List Char) :=
  let ip := s.takeWhile Char.isDigit
  match s.dropWhile Char.isDigit with
  | [] => scanNoFraction ip []
  | c :: r2 =>
    if c = '.' then
      let fp := r2.takeWhile Char.isDigit
      let r3 := r2.dropWhile Char.isDigit
      if ip.isEmpty && fp.isEmpty then none
      else
        let e := scanExp r3
        some (floatVal (natVal ip) (natVal fp) fp.length e.1, e.2)
    else scanNoFraction ip (c :: r2)

/-- Float literal with an optional leading sign. -/
def scanSignedFloat (s : List Char) : Option (ℚ × List Char) :=
  match s with
  | [] => scanUnsignedFloat []
  | c :: r =>
    if c = '+' then scanUnsignedFloat r
    else if c = '-' then (scanUnsignedFloat r).map (fun p => (-p.1, p.2))
    else scanUnsignedFloat (c :: r)

/-- One `%lf` conversion: skip whitespace, then a signed float literal. -/
def scanFloat (s : List Char) : Option (ℚ × List Char) :=
  scanSignedFloat (s.dropWhile isSpaceChar)

/-- `std::sscanf(line.c_str(), "%c %lf %lf %lf", &dummy, &x, &y, &z)`
together with the `parsed == 4 && dummy == 'v'` test of
`Model::VertexParser_`: the first character must be `v` and three floats
must follow; whatever comes after the third float is left unconsumed. -/
def scanVertexLine (line : List Char) : Option (ℚ × ℚ × ℚ × List Char) :=
  match line with
  | [] => none
  | c :: rest =>
    if c = 'v' then
      match scanFloat rest with
      | none => none
      | some (x, r1) =>
        match scanFloat r1 with
        | none => none
        | some (y, r2) =>
          match scanFloat r2 with
          | none => none
          | some (z, r3) => some (x, y, z, r3)
    else none

/-- `Model::VertexParser_`: on a successful scan append the three numbers
to `vertex_coord_`, otherwise set `error_code_ = kIncorrectData`. -/
def VertexParser_ (m : Model ℚ) (line : List Char) : Model ℚ :=
  match scanVertexLine line with
  | some (x, y, z, _) => { m with vertex_coord := m.vertex_coord ++ [x, y, z] }
  | none => { m with error_code := kIncorrectData }

/-- `std::getline(iss, token, ' ')` tokenisation of `Model::EdgesParser_`:
tokens are the maximal runs between single `' '` delimiters; a trailing
delimiter yields no final empty token (the stream is then at end-of-file
and the last `getline` fails). -/
def splitTokensAux (cur : List Char) : List Char → List (List Char)
  | [] => [cur.reverse]
  | c :: rest =>
    if c = ' ' then
      match rest with
      | [] => [cur.reverse]
      | _ :: _ => cur.reverse :: splitTokensAux [] rest
    else splitTokensAux (c :: cur) rest

/-- Token list of a face line remainder (empty input: the first `getline`
already fails, producing no tokens). -/
def splitTokens (s : List Char) : List (List Char) :=
  match s with
  | [] => []
  | _ :: _ => splitTokensAux [] s

/-- One `%d` conversion body after the sign has been handled. -/
def scanIntDigits (sign : Int) (r : List Char) : Option Int :=
  let ds := r.takeWhile Char.isDigit
  if ds.isEmpty then none else some (sign * (natVal ds : Int))

/-- `std::sscanf(token.c_str(), "%d", &index)`: skip whitespace, optional
sign, at least one decimal digit; trailing characters are left alone. -/
def scanInt (s : List Char) : Option Int :=
  match s.dropWhile isSpaceChar with
  | [] => scanIntDigits 1 []
  | c :: r =>
    if c = '+' then scanIntDigits 1 r
    else if c = '-' then scanIntDigits (-1) r
    else scanIntDigits 1 (c :: r)

/-- The treatment of one face-line token in `Model::EdgesParser_`: empty
tokens are skipped; a token whose `%d` scan fails or yields a value `≤ 0`
is discarded; otherwise the 1-based index becomes 0-based. -/
def faceToken (t : List Char) : Option Int :=
  if t.isEmpty then none
  else
    match scanInt t with
    | some index => if 0 < index then some (index - 1) else none
    | none => none

/-- The edge-emission loop of `Model::EdgesParser_`: for each position `i`
of the face-index list, push `face_indices[i]` and
`face_indices[(i+1) % size]`. -/
def cyclicEdges (fi : List Int) : List Int :=
  ((List.range fi.length).map
    (fun i => [fi.getD i 0, fi.getD ((i + 1) % fi.length) 0])).flatten

/-- `Model::EdgesParser_` on the line remainder after `"f "`. -/
def EdgesParser_ (m : Model ℚ) (line : List Char) : Model ℚ :=
  let face_indices := (splitTokens line).filterMap faceToken
  if 2 ≤ face_indices.length then
    { m with vertex_index := m.vertex_index ++ cyclicEdges face_indices }
  else m

/-- One iteration of the `Model::Parser` line loop: empty lines and lines
starting with `#` are skipped; a line of length `≥ 2` starting `"v "` goes
to `VertexParser_` (with the whole line), one starting `"f "` goes to
`EdgesParser_` (without the two marker characters); anything else is
ignored. -/
def parseLine (m : Model ℚ) (line : List Char) : Model ℚ :=
  match line with
  | [] => m
  | [_] => m
  | c0 :: c1 :: _ =>
    if c0 = '#' then m
    else if c0 = 'v' ∧ c1 = ' ' then VertexParser_ m line
    else if c0 = 'f' ∧ c1 = ' ' then EdgesParser_ m (line.drop 2)
    else m

/-- The `while (error_code_ == kNoError && std::getline(file, line))` loop
of `Model::Parser`: the error code is re-checked before each line is
consumed. -/
def parseLines (m : Model ℚ) : List (List Char) → Model ℚ
  | [] => m
  | line :: rest =>
    if m.error_code = kNoError then parseLines (parseLine m line) rest
    else m

/-- The running-maximum loop of `Model::Normalize_`. -/
def maxAbsValue (coords : List ℚ) : ℚ :=
  coords.foldl (fun acc c => if |c| > acc then |c| else acc) 0

/-- `Model::Normalize_` on the coordinate vector: no-op when empty; when
the maximal absolute value exceeds the threshold, multiply every
coordinate by `1 / max`. -/
def Normalize_ (coords : List ℚ) : List ℚ :=
  if coords.isEmpty then coords
  else
    let max_abs_value := maxAbsValue coords
    if max_abs_value > kNormalizationThreshold then
      coords.map (fun coord => coord * (1 / max_abs_value))
    else coords

/-- `Model::Parser`.  The file system is abstracted into the `src`
argument: `none` models a file that fails to open, `some lines` models a
readable file split into its lines. -/
def Model.Parser (src : Option (List (List Char))) (m : Model ℚ) : Model ℚ :=
  if m.error_code ≠ kNoError then m
  else
    match src with
    | none => { m with error_code := kFailedToOpen }
    | some lines =>
      let m2 := parseLines m lines
      if m2.error_code = kNoError then
        { m2 with vertex_coord := Normalize_ m2.vertex_coord }
      else m2

/-- The literal suffix `".obj"`. -/
def objSuffix : List Char := '.' :: 'o' :: 'b' :: 'j' :: []

/-- `Model::IsValidObjExtension_`. -/
def IsValidObjExtension_ (filename : List Char) : Bool :=
  if filename.length < kMinObjFilenameLength then false
  else
    decide (4 ≤ filename.length) &&
      decide (filename.drop (filename.length - 4) = objSuffix)

/-- `Model::ClearData_`. -/
def ClearData_ (m : Model α) : Model α :=
  { m with vertex_coord := [], vertex_index := [], error_code := kNoError }

/-- `Model::SetFileName`. -/
def SetFileName (m : Model α) (file_name : List Char) : Model α :=
  let m1 := ClearData_ m
  if ¬ IsValidObjExtension_ file_name then
    { m1 with error_code := kFileWrongExtension }
  else
    { m1 with filename := file_name, error_code := kNoError }

/-! ### Transformation strategies (`tranformation.cpp`), over `ℝ`

The `transformation_t` enum doubles as axis (`kX=0,kY=1,kZ=2`) and
strategy selector (`kMove=0,kRotate=1,kScale=2`); it is modelled as `Int`.
The C++ `switch` statements have no `default` label, so an axis value
outside the enum leaves the coordinates unchanged. -/

/-- `transformation_t` axis `kX` / strategy `kMove`. -/
def kX : Int := 0

/-- `transformation_t` axis `kY` / strategy `kRotate`. -/
def kY : Int := 1

/-- `transformation_t` axis `kZ` / strategy `kScale`. -/
def kZ : Int := 2

/-- Strategy selector `kMove` (same enum value as `kX`). -/
def kMove : Int := 0

/-- Strategy selector `kRotate` (same enum value as `kY`). -/
def kRotate : Int := 1

/-- Strategy selector `kScale` (same enum value as `kZ`). -/
def kScale : Int := 2

/-- `MoveStrategy::Transform`: `axis_offset = static_cast<size_t>(axis)`,
then `for (i = axis_offset; i < size; i += 3) v[i] += step` — exactly the
positions `i ≥ axis` with `i ≡ axis (mod 3)`.  A negative axis casts to a
`size_t` far beyond any buffer length, so the loop never runs. -/
def MoveStrategy.Transform (vertex_coord : List ℝ) (step : ℝ) (axis : Int) :
    List ℝ :=
  if axis < 0 then vertex_coord
  else
    vertex_coord.mapIdx (fun i c =>
      if axis.toNat ≤ i ∧ (i - axis.toNat) % 3 = 0 then c + step else c)

/-- `RotateStrategy::kRadianToDegree = M_PI / 180.0` (the misleadingly
named degree-to-radian factor). -/
noncomputable def kRadianToDegree : ℝ := Real.pi / 180

/-- A buffer holding the listed vertices in order: the flat
`(x,y,z,x,y,z,…)` layout of `vertex_coord_`. -/
def flattenVertices : List (ℝ × ℝ × ℝ) → List ℝ
  | [] => []
  | (x, y, z) :: vs => x :: y :: z :: flattenVertices vs

/-- `RotateStrategy::RotateAroundX_`: per vertex,
`y' = cos·y − sin·z`, `z' = sin·y + cos·z`.  (A trailing fragment of fewer
than three coordinates would be indexed out of bounds by the C++ loop; the
model leaves it unchanged.) -/
def RotateStrategy.RotateAroundX_ (cos_val sin_val : ℝ) : List ℝ → List ℝ
  | x :: y :: z :: rest =>
    x :: (cos_val * y - sin_val * z) :: (sin_val * y + cos_val * z) ::
      RotateStrategy.RotateAroundX_ cos_val sin_val rest
  | l => l

/-- `RotateStrategy::RotateAroundY_`: per vertex,
`x' = cos·x + sin·z`, `z' = −sin·x + cos·z`. -/
def RotateStrategy.RotateAroundY_ (cos_val sin_val : ℝ) : List ℝ → List ℝ
  | x :: y :: z :: rest =>
    (cos_val * x + sin_val * z) :: y :: (-sin_val * x + cos_val * z) ::
      RotateStrategy.RotateAroundY_ cos_val sin_val rest
  | l => l

/-- `RotateStrategy::RotateAroundZ_`: per vertex,
`x' = cos·x + sin·y`, `y' = −sin·x + cos·y`. -/
def RotateStrategy.RotateAroundZ_ (cos_val sin_val : ℝ) : List ℝ → List ℝ
  | x :: y :: z :: rest =>
    (cos_val * x + sin_val * y) :: (-sin_val * x + cos_val * y) :: z ::
      RotateStrategy.RotateAroundZ_ cos_val sin_val rest
  | l => l

/-- `RotateStrategy::Transform`: no-op below one full vertex; converts the
angle with `kRadianToDegree`, precomputes one sin/cos pair and dispatches
on the axis. -/
noncomputable def RotateStrategy.Transform (vertex_coord : List ℝ)
    (angle : ℝ) (axis : Int) : List ℝ :=
  if vertex_coord.length < 3 then vertex_coord
  else
    let rad_angle := angle * kRadianToDegree
    let cos_val := Real.cos rad_angle
    let sin_val := Real.sin rad_angle
    if axis = kX then RotateStrategy.RotateAroundX_ cos_val sin_val vertex_coord
    else if axis = kY then RotateStrategy.RotateAroundY_ cos_val sin_val vertex_coord
    else if axis = kZ then RotateStrategy.RotateAroundZ_ cos_val sin_val vertex_coord
    else vertex_coord

/-- `ScaleStrategy::Transform`: no-op for `scale ≤ 0`; otherwise multiply
every coordinate by `scale` (the axis parameter is unnamed and unused in
the C++). -/
noncomputable def ScaleStrategy.Transform (vertex_coord : List ℝ)
    (scale : ℝ) (_axis : Int) : List ℝ :=
  if scale ≤ 0 then vertex_coord
  else vertex_coord.map (fun coord => coord * scale)

/-- `Model::Transform`: no-op on an empty coordinate vector; dispatches on
`strategy_type` (`switch` with a `default: return;`). -/
noncomputable def Model.Transform (m : Model ℝ) (strategy_type : Int)
    (value : ℝ) (axis : Int) : Model ℝ :=
  if m.vertex_coord.isEmpty then m
  else if strategy_type = kMove then
    { m with vertex_coord := MoveStrategy.Transform m.vertex_coord value axis }
  else if strategy_type = kRotate then
    { m with vertex_coord := RotateStrategy.Transform m.vertex_coord value axis }
  else if strategy_type = kScale then
    { m with vertex_coord := ScaleStrategy.Transform m.vertex_coord value axis }
  else m

/-! ### Spec-side definitions

These follow the wording of the specification (not the code); they are
compared with the code model in the refinement theorems below. -/

/-- Whitespace-tokeniser used to state the spec's "three whitespace-
separated floating-point numbers": the maximal nonempty runs of
non-whitespace characters. -/
def wsTokensAux (cur : List Char) : List Char → List (List Char)
  | [] => if cur.isEmpty then [] else [cur.reverse]
  | c :: rest =>
    if isSpaceChar c then
      if cur.isEmpty then wsTokensAux [] rest
      else cur.reverse :: wsTokensAux [] rest
    else wsTokensAux (c :: cur) rest

/-- The whitespace-separated tokens of a character list. -/
def wsTokens (s : List Char) : List (List Char) := wsTokensAux [] s

/-- A token that is, in its entirety, one signed float literal. -/
def isFloatLiteral (t : List Char) : Bool :=
  match scanSignedFloat t with
  | some (_, []) => true
  | _ => false

/-- Modelled from the spec: a line that "matches exactly the pattern `v`
plus exactly three whitespace-separated floating-point numbers with
nothing else" — `v` followed by exactly three tokens, each wholly a float
literal. -/
def specVertexExact (line : List Char) : Bool :=
  match line with
  | 'v' :: rest =>
    let ts := wsTokens rest
    ts.length == 3 && ts.all isFloatLiteral
  | _ => false

/-- Modelled from the spec: a path passes extension validation iff it has
total length ≥ 5 and ends in the literal, case-sensitive suffix ".obj". -/
def specValidObj (p : List Char) : Bool :=
  decide (5 ≤ p.length) && decide (objSuffix <:+ p)

/-- A character list that is empty or starts with a whitespace character
(the shape of the ignored content after the third number of a vertex
line). -/
def spaceLed (u : List Char) : Prop :=
  u = [] ∨ ∃ c u', u = c :: u' ∧ isSpaceChar c = true

/-! ### Concrete sources used by witnesses and counterexamples -/

/-- The quad source of the spec's testable property:
`"v 0 0 0\nv 1 0 0\nv 1 1 0\nv 0 1 0\nf 1 2 3 4\n"`. -/
def quadSource : List (List Char) :=
  ["v 0 0 0".toList, "v 1 0 0".toList, "v 1 1 0".toList, "v 0 1 0".toList,
    "f 1 2 3 4".toList]

/-- A source whose face line references a vertex index (2, 0-based 1) not
smaller than the vertex count (1). -/
def oobSource : List (List Char) :=
  ["v 0 0 0".toList, "f 1 2".toList]

/-- A vertex line carrying a fourth number after the three coordinates. -/
def extraVertexLine : List Char := "v 1 2 3 4".toList

/-- The spec's malformed vertex line `"v invalid data"`. -/
def badVertexLine : List Char := "v invalid data".toList

/-- A well-formed vertex line. -/
def goodVertexLine : List Char := "v 5 6 7".toList

/-! ## Theorems -/

/-- C10: for every `strategy_type` outside `{kMove, kRotate, kScale}`,
`Model::Transform` is a silent no-op: coordinates, edges and error code
are all left unchanged. -/
theorem transform_unknown_strategy_noop (m : Model ℝ) (strategy_type : Int)
    (value : ℝ) (axis : Int) (h0 : strategy_type ≠ kMove)
    (h1 : strategy_type ≠ kRotate) (h2 : strategy_type ≠ kScale) :
    Model.Transform m strategy_type value axis = m := by
  simp [Model.Transform, h0, h1, h2]

/-- Witness for C10 at `strategy_type = 3` on a concrete state. -/
theorem transform_unknown_strategy_noop_witness :
    (3 : Int) ≠ kMove ∧ (3 : Int) ≠ kRotate ∧ (3 : Int) ≠ kScale ∧
      Model.Transform ⟨[], [1, 0, 0], [0, 1], kNoError⟩ 3 5 kX =
        ⟨[], [1, 0, 0], [0, 1], kNoError⟩ :=
  ⟨by decide, by decide, by decide,
    transform_unknown_strategy_noop ⟨[], [1, 0, 0], [0, 1], kNoError⟩ 3 5 kX
      (by decide) (by decide) (by decide)⟩

/-- C9: `ScaleStrategy::Transform` is a no-op for every `value ≤ 0`; for
every `value > 0` it multiplies every coordinate by `value`; the axis
parameter is ignored. -/
theorem scale_spec (coords : List ℝ) (value : ℝ) (axis axis2 : Int) :
    (value ≤ 0 → ScaleStrategy.Transform coords value axis = coords) ∧
    (0 < value →
      ScaleStrategy.Transform coords value axis =
        coords.map (fun c => c * value)) ∧
    ScaleStrategy.Transform coords value axis =
      ScaleStrategy.Transform coords value axis2 := by
  refine ⟨fun h => ?_, fun h => ?_, rfl⟩
  · simp [ScaleStrategy.Transform, h]
  · simp [ScaleStrategy.Transform, not_le.mpr h]

/-- Witness for C9: scaling by `2` doubles the coordinates, scaling by
`-1` changes nothing. -/
theorem scale_spec_witness :
    ((0 : ℝ) < 2 ∧
      ScaleStrategy.Transform [1, -2] 2 kX = [1 * 2, (-2 : ℝ) * 2]) ∧
    ((-1 : ℝ) ≤ 0 ∧ ScaleStrategy.Transform [1, -2] (-1) kX = [1, -2]) :=
  ⟨⟨by norm_num, (scale_spec [1, -2] 2 kX kX).2.1 (by norm_num)⟩,
    ⟨by norm_num, (scale_spec [1, -2] (-1) kX kX).1 (by norm_num)⟩⟩

/-- `RotateAroundZ_` on a single vertex. -/
theorem rotateAroundZ_triple (c s x y z : ℝ) :
    RotateStrategy.RotateAroundZ_ c s [x, y, z] =
      [c * x + s * y, -s * x + c * y, z] := by
  simp [RotateStrategy.RotateAroundZ_]

/-- `RotateStrategy::Transform` around `kZ` on a single vertex, with the
claim's formula `x' = x·cosθ + y·sinθ`, `y' = −x·sinθ + y·cosθ` for
`θ = value·π/180`. -/
theorem rotate_transform_triple (angle x y z : ℝ) :
    RotateStrategy.Transform [x, y, z] angle kZ =
      [x * Real.cos (angle * (Real.pi / 180)) +
          y * Real.sin (angle * (Real.pi / 180)),
        -(x * Real.sin (angle * (Real.pi / 180))) +
          y * Real.cos (angle * (Real.pi / 180)), z] := by
  have hlen : ¬ ([x, y, z].length < 3) := by simp
  simp only [RotateStrategy.Transform, hlen, if_false, kRadianToDegree, kZ, kX, kY]
  norm_num [rotateAroundZ_triple]
  constructor
  · ring
  · ring

/-- A flat buffer of `n` vertices holds `3·n` coordinates. -/
theorem flattenVertices_length (vs : List (ℝ × ℝ × ℝ)) :
    (flattenVertices vs).length = 3 * vs.length := by
  induction vs with
  | nil => rfl
  | cons v vs ih =>
    obtain ⟨x, y, z⟩ := v
    simp only [flattenVertices, List.length_cons, ih]
    ring

/-- `RotateAroundZ_` applies the same `(cos, sin)` pair to every vertex of
the buffer. -/
theorem rotateAroundZ_flatten (c s : ℝ) (vs : List (ℝ × ℝ × ℝ)) :
    RotateStrategy.RotateAroundZ_ c s (flattenVertices vs) =
      flattenVertices (vs.map (fun v =>
        (c * v.1 + s * v.2.1, -s * v.1 + c * v.2.1, v.2.2))) := by
  induction vs with
  | nil => rfl
  | cons v vs ih =>
    obtain ⟨x, y, z⟩ := v
    show RotateStrategy.RotateAroundZ_ c s (x :: y :: z :: flattenVertices vs) = _
    rw [show RotateStrategy.RotateAroundZ_ c s
        (x :: y :: z :: flattenVertices vs) =
      (c * x + s * y) :: (-s * x + c * y) :: z ::
        RotateStrategy.RotateAroundZ_ c s (flattenVertices vs) from rfl]
    rw [ih]
    rfl

/-- C8: `Rotate` converts degrees to radians and applies, with one
precomputed sin/cos pair, the 2D rotation on the two non-axis components
of every vertex of the buffer (`x' = x·cosθ + y·sinθ`,
`y' = −x·sinθ + y·cosθ` around `kZ`); rotating `(1,0,0)` by 90° around
`kZ` gives exactly `(0,−1,0)`; it is a no-op when fewer than 3
coordinates are stored. -/
theorem rotate_spec (coords : List ℝ) (angle : ℝ) (axis : Int) (x y z : ℝ)
    (vs : List (ℝ × ℝ × ℝ)) :
    (coords.length < 3 → RotateStrategy.Transform coords angle axis = coords) ∧
    RotateStrategy.Transform [x, y, z] angle kZ =
      [x * Real.cos (angle * (Real.pi / 180)) +
          y * Real.sin (angle * (Real.pi / 180)),
        -(x * Real.sin (angle * (Real.pi / 180))) +
          y * Real.cos (angle * (Real.pi / 180)), z] ∧
    (vs ≠ [] →
      RotateStrategy.Transform (flattenVertices vs) angle kZ =
        flattenVertices (vs.map (fun v =>
          (v.1 * Real.cos (angle * (Real.pi / 180)) +
              v.2.1 * Real.sin (angle * (Real.pi / 180)),
            -(v.1 * Real.sin (angle * (Real.pi / 180))) +
              v.2.1 * Real.cos (angle * (Real.pi / 180)),
            v.2.2)))) ∧
    RotateStrategy.Transform [1, 0, 0] 90 kZ = [0, -1, 0] := by
  refine ⟨fun h => ?_, rotate_transform_triple angle x y z, fun hne => ?_, ?_⟩
  · simp [RotateStrategy.Transform, h]
  · have hlen : ¬ ((flattenVertices vs).length < 3) := by
      rw [flattenVertices_length]
      rcases vs with _ | ⟨v, vs⟩
      · exact absurd rfl hne
      · simp only [List.length_cons]
        omega
    simp only [RotateStrategy.Transform, hlen, if_false, kRadianToDegree,
      kX, kY, kZ]
    norm_num
    rw [rotateAroundZ_flatten]
    have hfun : (fun v : ℝ × ℝ × ℝ =>
          (Real.cos (angle * (Real.pi / 180)) * v.1 +
              Real.sin (angle * (Real.pi / 180)) * v.2.1,
            -Real.sin (angle * (Real.pi / 180)) * v.1 +
              Real.cos (angle * (Real.pi / 180)) * v.2.1, v.2.2)) =
        (fun v : ℝ × ℝ × ℝ =>
          (v.1 * Real.cos (angle * (Real.pi / 180)) +
              v.2.1 * Real.sin (angle * (Real.pi / 180)),
            -(v.1 * Real.sin (angle * (Real.pi / 180))) +
              v.2.1 * Real.cos (angle * (Real.pi / 180)), v.2.2)) := by
      funext v
      rw [Prod.mk.injEq, Prod.mk.injEq]
      exact ⟨by ring, by ring, rfl⟩
    rw [hfun]
  · rw [rotate_transform_triple]
    have hθ : (90 : ℝ) * (Real.pi / 180) = Real.pi / 2 := by ring
    rw [hθ, Real.cos_pi_div_two, Real.sin_pi_div_two]
    norm_num

/-- Witness for C8: two lone coordinates are left alone, and on the
two-vertex buffer `(1,0,0), (0,2,5)` a 90° rotation around `kZ` rotates
both vertices, giving exactly `(0,−1,0), (2,0,5)`. -/
theorem rotate_spec_witness :
    (([(1 : ℝ), 0].length < 3) ∧
      RotateStrategy.Transform [(1 : ℝ), 0] 45 kZ = [1, 0]) ∧
    (([((1 : ℝ), (0 : ℝ), (0 : ℝ)), ((0 : ℝ), (2 : ℝ), (5 : ℝ))] :
        List (ℝ × ℝ × ℝ)) ≠ [] ∧
      RotateStrategy.Transform [(1 : ℝ), 0, 0, 0, 2, 5] 90 kZ =
        [0, -1, 0, 2, 0, 5]) := by
  constructor
  · exact ⟨by norm_num, (rotate_spec [(1 : ℝ), 0] 45 kZ 0 0 0 []).1 (by norm_num)⟩
  · refine ⟨by simp, ?_⟩
    have h := (rotate_spec [] 90 kZ 0 0 0
        [((1 : ℝ), (0 : ℝ), (0 : ℝ)), ((0 : ℝ), (2 : ℝ), (5 : ℝ))]).2.2.1
      (by simp)
    rw [show flattenVertices
        [((1 : ℝ), (0 : ℝ), (0 : ℝ)), ((0 : ℝ), (2 : ℝ), (5 : ℝ))] =
      [1, 0, 0, 0, 2, 5] from rfl] at h
    rw [h]
    have hθ : (90 : ℝ) * (Real.pi / 180) = Real.pi / 2 := by ring
    simp only [List.map_cons, List.map_nil, hθ, Real.cos_pi_div_two,
      Real.sin_pi_div_two]
    norm_num [flattenVertices]

/-- The running-maximum loop computes a `foldl` of `max` with `|·|`. -/
theorem maxAbsValue_eq_foldl_max (coords : List ℚ) :
    maxAbsValue coords = coords.foldl (fun acc c => max acc |c|) 0 := by
  unfold maxAbsValue
  congr 1
  funext acc c
  rcases lt_or_le acc |c| with h | h
  · rw [if_pos h, max_eq_right h.le]
  · rw [if_neg (not_lt.mpr h), max_eq_left h]

/-- Scaling every element by a nonnegative factor scales the max-abs fold
accumulator-wise. -/
theorem foldl_max_abs_map_mul (k : ℚ) (hk : 0 ≤ k) :
    ∀ (l : List ℚ) (a : ℚ),
      (l.map (fun c => c * k)).foldl (fun acc c => max acc |c|) (k * a) =
        k * l.foldl (fun acc c => max acc |c|) a := by
  intro l
  induction l with
  | nil => intro a; rfl
  | cons c l ih =>
    intro a
    have habs : |c * k| = k * |c| := by
      rw [abs_mul, abs_of_nonneg hk, mul_comm]
    simp only [List.map_cons, List.foldl_cons, habs,
      ← mul_max_of_nonneg _ _ hk]
    exact ih (max a |c|)

/-- `maxAbsValue` commutes with scaling by a nonnegative factor. -/
theorem maxAbsValue_map_mul (k : ℚ) (hk : 0 ≤ k) (l : List ℚ) :
    maxAbsValue (l.map (fun c => c * k)) = k * maxAbsValue l := by
  rw [maxAbsValue_eq_foldl_max, maxAbsValue_eq_foldl_max]
  have h0 : (0 : ℚ) = k * 0 := by ring
  conv_lhs => rw [h0]
  exact foldl_max_abs_map_mul k hk l 0

/-- C6: `Normalize_` is a no-op on an empty buffer and on any buffer whose
maximal absolute coordinate is at most the threshold 10; when the maximum
exceeds 10 it multiplies every coordinate by `1 / max`, after which the
maximal absolute coordinate is exactly 1. -/
theorem normalize_spec (coords : List ℚ) :
    Normalize_ [] = ([] : List ℚ) ∧
    (maxAbsValue coords ≤ kNormalizationThreshold →
      Normalize_ coords = coords) ∧
    (kNormalizationThreshold < maxAbsValue coords →
      Normalize_ coords =
          coords.map (fun c => c * (1 / maxAbsValue coords)) ∧
        maxAbsValue (Normalize_ coords) = 1) := by
  refine ⟨rfl, fun h => ?_, fun h => ?_⟩
  · unfold Normalize_
    split
    · rfl
    · rw [if_neg (not_lt.mpr h)]
  · have hne : ¬ coords.isEmpty = true := by
      intro hemp
      rw [List.isEmpty_iff.mp hemp] at h
      exact absurd h (by decide)
    have hmap : Normalize_ coords =
        coords.map (fun c => c * (1 / maxAbsValue coords)) := by
      unfold Normalize_
      rw [if_neg hne, if_pos h]
    refine ⟨hmap, ?_⟩
    have hpos : 0 < maxAbsValue coords :=
      lt_trans (by norm_num [kNormalizationThreshold]) h
    rw [hmap, maxAbsValue_map_mul _ (by positivity)]
    field_simp

/-- Witness for C6: `[1, -2, 3]` is untouched; `[20, 5, 0]` is rescaled to
max-abs exactly 1. -/
theorem normalize_spec_witness :
    (maxAbsValue [(1 : ℚ), -2, 3] ≤ kNormalizationThreshold ∧
      Normalize_ [(1 : ℚ), -2, 3] = [1, -2, 3]) ∧
    (kNormalizationThreshold < maxAbsValue [(20 : ℚ), 5, 0] ∧
      maxAbsValue (Normalize_ [(20 : ℚ), 5, 0]) = 1) :=
  ⟨⟨by decide, (normalize_spec [(1 : ℚ), -2, 3]).2.1 (by decide)⟩,
    ⟨by decide, ((normalize_spec [(20 : ℚ), 5, 0]).2.2 (by decide)).2⟩⟩

/-- The code's extension check coincides with the spec's reading: length
at least 5 and the literal suffix ".obj". -/
theorem isValidObjExtension_eq_spec (p : List Char) :
    IsValidObjExtension_ p = specValidObj p := by
  unfold IsValidObjExtension_ specValidObj kMinObjFilenameLength
  by_cases h5 : p.length < 5
  · rw [if_pos h5]
    have : ¬ (5 ≤ p.length) := by omega
    simp [this]
  · rw [if_neg h5]
    have h5' : 5 ≤ p.length := by omega
    have h4 : 4 ≤ p.length := by omega
    have hiff : p.drop (p.length - 4) = objSuffix ↔ objSuffix <:+ p := by
      constructor
      · intro h
        rw [← h]
        exact List.drop_suffix _ _
      · rintro ⟨t, rfl⟩
        have hlen : (t ++ objSuffix).length - 4 = t.length := by
          simp [objSuffix]
        rw [hlen, List.drop_left]
    simp [h5', h4, hiff]

/-- C7: `SetFileName` clears the buffer and the error unconditionally;
a path failing the validation (length ≥ 5 and literal suffix ".obj") gets
`kFileWrongExtension` and the stored source is not replaced; a path
passing it is stored with `kNoError`. -/
theorem setFileName_spec (m : Model ℚ) (p : List Char) :
    (specValidObj p = true →
      SetFileName m p = ⟨p, [], [], kNoError⟩) ∧
    (specValidObj p = false →
      SetFileName m p = ⟨m.filename, [], [], kFileWrongExtension⟩) := by
  constructor
  · intro h
    unfold SetFileName ClearData_
    rw [if_neg (by rw [isValidObjExtension_eq_spec, h]; simp)]
  · intro h
    unfold SetFileName ClearData_
    rw [if_pos (by rw [isValidObjExtension_eq_spec, h]; simp)]

/-- Witness for C7: a valid and an invalid path applied to a dirty state. -/
theorem setFileName_spec_witness :
    (specValidObj ("cube.obj".toList) = true ∧
      SetFileName (⟨"old.obj".toList, [7], [4], kIncorrectData⟩ : Model ℚ)
          ("cube.obj".toList) =
        ⟨"cube.obj".toList, [], [], kNoError⟩) ∧
    (specValidObj ("test.txt".toList) = false ∧
      SetFileName (⟨"old.obj".toList, [7], [4], kIncorrectData⟩ : Model ℚ)
          ("test.txt".toList) =
        ⟨"old.obj".toList, [], [], kFileWrongExtension⟩) :=
  ⟨⟨by decide,
      (setFileName_spec ⟨"old.obj".toList, [7], [4], kIncorrectData⟩
          ("cube.obj".toList)).1 (by decide)⟩,
    ⟨by decide,
      (setFileName_spec ⟨"old.obj".toList, [7], [4], kIncorrectData⟩
          ("test.txt".toList)).2 (by decide)⟩⟩

/-- C3: `EdgesParser_` never changes the error code (or the coordinates);
a token whose `%d` scan fails or yields a value `≤ 0` contributes nothing
to the face-index list, wherever it occurs. -/
theorem face_tokens_spec (m : Model ℚ) (line t : List Char)
    (pre post : List (List Char)) :
    (EdgesParser_ m line).error_code = m.error_code ∧
    (EdgesParser_ m line).vertex_coord = m.vertex_coord ∧
    ((scanInt t = none ∨ ∃ i, scanInt t = some i ∧ i ≤ 0) →
      faceToken t = none) ∧
    (faceToken t = none →
      (pre ++ t :: post).filterMap faceToken =
        (pre ++ post).filterMap faceToken) := by
  refine ⟨?_, ?_, ?_, ?_⟩
  · simp only [EdgesParser_]
    split <;> rfl
  · simp only [EdgesParser_]
    split <;> rfl
  · intro h
    unfold faceToken
    split
    · rfl
    · rcases h with h | ⟨i, hi, hle⟩
      · rw [h]
      · rw [hi]
        simp [not_lt.mpr hle]
  · intro h
    simp [List.filterMap_append, List.filterMap_cons, h]

/-- Witness for C3: the all-invalid face line `"abc def"` changes nothing,
and the unparsable token `"abc"` and the nonpositive token `"-1"` are
discarded. -/
theorem face_tokens_spec_witness :
    (scanInt ("abc".toList) = none ∧ faceToken ("abc".toList) = none) ∧
    (faceToken ("x".toList) = none ∧
      (([("1".toList)] ++ ("x".toList) :: [("2".toList)]).filterMap faceToken =
        ([("1".toList)] ++ [("2".toList)]).filterMap faceToken)) ∧
    (EdgesParser_ initModel ("abc def".toList)).error_code =
      initModel.error_code :=
  ⟨⟨by decide,
      (face_tokens_spec initModel [] ("abc".toList) [] []).2.2.1
        (Or.inl (by decide))⟩,
    ⟨by decide,
      (face_tokens_spec initModel [] ("x".toList) [("1".toList)]
          [("2".toList)]).2.2.2 (by decide)⟩,
    (face_tokens_spec initModel ("abc def".toList) [] [] []).1⟩

/-- Once the error code is set, `parseLines` consumes nothing. -/
theorem parseLines_of_error (ls : List (List Char)) (m : Model ℚ)
    (h : m.error_code ≠ kNoError) : parseLines m ls = m := by
  cases ls <;> simp [parseLines, h]

/-- If a prefix of the line list already ends with an error, the remaining
lines are never consumed. -/
theorem parseLines_append (ls1 ls2 : List (List Char)) :
    ∀ m : Model ℚ, (parseLines m ls1).error_code ≠ kNoError →
      parseLines m (ls1 ++ ls2) = parseLines m ls1 := by
  induction ls1 with
  | nil =>
    intro m h
    exact parseLines_of_error ls2 m h
  | cons l ls1 ih =>
    intro m h
    by_cases hm : m.error_code = kNoError
    · simp only [List.cons_append, parseLines, hm, if_pos]
      simp only [parseLines, hm, if_pos] at h
      exact ih (parseLine m l) h
    · simp [parseLines, hm]

/-- C4: once an error code is set mid-parse, no further input lines are
consumed; and with an error pending, `Model::Parser` is a no-op leaving
the whole state unchanged. -/
theorem parser_error_sticky (src : Option (List (List Char))) (m : Model ℚ)
    (ls1 ls2 : List (List Char)) :
    ((parseLines m ls1).error_code ≠ kNoError →
      parseLines m (ls1 ++ ls2) = parseLines m ls1) ∧
    (m.error_code ≠ kNoError → Model.Parser src m = m) := by
  refine ⟨parseLines_append ls1 ls2 m, fun h => ?_⟩
  simp [Model.Parser, h]

/-- Witness for C4: after the malformed vertex line the error is set, a
following good line is not consumed, and `Parser` refuses to run on an
error state. -/
theorem parser_error_sticky_witness :
    (parseLines initModel [badVertexLine]).error_code ≠ kNoError ∧
    parseLines initModel ([badVertexLine] ++ [goodVertexLine]) =
      parseLines initModel [badVertexLine] ∧
    (⟨[], [], [], kIncorrectData⟩ : Model ℚ).error_code ≠ kNoError ∧
    Model.Parser (some [goodVertexLine]) ⟨[], [], [], kIncorrectData⟩ =
      ⟨[], [], [], kIncorrectData⟩ :=
  ⟨by decide,
    (parser_error_sticky none initModel [badVertexLine] [goodVertexLine]).1
      (by decide),
    by decide,
    (parser_error_sticky (some [goodVertexLine])
        ⟨[], [], [], kIncorrectData⟩ [] []).2 (by decide)⟩

/-- The edge-emission loop produces exactly one edge per consecutive pair
of the face-index list read as a cycle: the pairs of `fi.zip (fi.rotate 1)`. -/
theorem cyclicEdges_eq_zip_rotate (fi : List Int) :
    cyclicEdges fi =
      ((fi.zip (fi.rotate 1)).map (fun p => [p.1, p.2])).flatten := by
  unfold cyclicEdges
  congr 1
  apply List.ext_getElem
  · simp
  · intro i h1 h2
    have hi : i < fi.length := by simpa using h1
    have hlen0 : 0 < fi.length := lt_of_le_of_lt (Nat.zero_le _) hi
    simp only [List.getElem_map, List.getElem_range, List.getElem_zip]
    rw [List.getElem_rotate]
    rw [List.getD_eq_getElem fi 0 hi,
      List.getD_eq_getElem fi 0 (Nat.mod_lt _ hlen0)]

/-- C5: a face line with at least two valid indices emits one edge per
consecutive pair of the index list treated as a cycle (closing edge
included); with fewer than two valid indices it emits nothing; the quad
source yields 4 vertices and the 8 edge entries
`[0, 1, 1, 2, 2, 3, 3, 0]`. -/
theorem face_cycle_spec (m : Model ℚ) (line : List Char) :
    (2 ≤ ((splitTokens line).filterMap faceToken).length →
      EdgesParser_ m line =
        { m with vertex_index := m.vertex_index ++
            ((((splitTokens line).filterMap faceToken).zip
                (((splitTokens line).filterMap faceToken).rotate 1)).map
              (fun p => [p.1, p.2])).flatten }) ∧
    (((splitTokens line).filterMap faceToken).length < 2 →
      EdgesParser_ m line = m) ∧
    (Model.Parser (some quadSource) initModel).vertex_coord.length = 4 * 3 ∧
    (Model.Parser (some quadSource) initModel).vertex_index =
      [0, 1, 1, 2, 2, 3, 3, 0] := by
  refine ⟨fun h => ?_, fun h => ?_, by decide, by decide⟩
  · simp only [EdgesParser_]
    rw [if_pos h, cyclicEdges_eq_zip_rotate]
  · simp only [EdgesParser_]
    rw [if_neg (by omega)]

/-- Witness for C5: the face line remainder `"1 2 3"` has three valid
indices and emits the triangle's cyclic edges; `"7"` alone emits none. -/
theorem face_cycle_spec_witness :
    (2 ≤ ((splitTokens ("1 2 3".toList)).filterMap faceToken).length ∧
      EdgesParser_ initModel ("1 2 3".toList) =
        ⟨[], [], [0, 1, 1, 2, 2, 0], kNoError⟩) ∧
    (((splitTokens ("7".toList)).filterMap faceToken).length < 2 ∧
      EdgesParser_ initModel ("7".toList) = initModel) :=
  ⟨⟨by decide, (face_cycle_spec initModel ("1 2 3".toList)).1 (by decide)⟩,
    ⟨by decide, (face_cycle_spec initModel ("7".toList)).2.1 (by decide)⟩⟩

/-- C1 counterexample: `oobSource` (one vertex, face `"f 1 2"`) is parsed
without error, yet the edge list contains the endpoint `1`, which is not
smaller than the vertex count `1`: the parser performs no bounds check. -/
theorem edge_bound_counterexample :
    (Model.Parser (some oobSource) initModel).error_code = kNoError ∧
    (Model.Parser (some oobSource) initModel).vertex_index = [0, 1, 1, 0] ∧
    (Model.Parser (some oobSource) initModel).vertex_coord.length / 3 = 1 ∧
    ¬ (∀ e ∈ (Model.Parser (some oobSource) initModel).vertex_index,
        e < ((Model.Parser (some oobSource) initModel).vertex_coord.length / 3
          : Nat)) := by
  refine ⟨by decide, by decide, by decide, by decide⟩

/-- A face-token value is always nonnegative (1-based positive indices
shifted down by one). -/
theorem faceToken_nonneg (t : List Char) (j : Int) (h : faceToken t = some j) :
    0 ≤ j := by
  unfold faceToken at h
  split at h
  · exact absurd h (by simp)
  · split at h
    · split at h
      · rename_i i _ hpos
        rw [Option.some.injEq] at h
        omega
      · exact absurd h (by simp)
    · exact absurd h (by simp)

/-- `getD` with default `0` over a nonnegative list is nonnegative. -/
theorem getD_nonneg (l : List Int) (h : ∀ a ∈ l, 0 ≤ a) (i : Nat) :
    0 ≤ l.getD i 0 := by
  by_cases hi : i < l.length
  · rw [List.getD_eq_getElem l 0 hi]
    exact h _ (List.getElem_mem hi)
  · rw [List.getD_eq_default l 0 (by omega)]

/-- Every entry of `cyclicEdges` over a nonnegative index list is
nonnegative. -/
theorem cyclicEdges_nonneg (fi : List Int) (h : ∀ a ∈ fi, 0 ≤ a) :
    ∀ e ∈ cyclicEdges fi, 0 ≤ e := by
  intro e he
  unfold cyclicEdges at he
  rw [List.mem_flatten] at he
  obtain ⟨l, hl, hel⟩ := he
  rw [List.mem_map] at hl
  obtain ⟨i, _, rfl⟩ := hl
  simp only [List.mem_cons, List.not_mem_nil, or_false] at hel
  rcases hel with rfl | rfl
  · exact getD_nonneg fi h i
  · exact getD_nonneg fi h _

/-- `EdgesParser_` preserves nonnegativity of the edge list. -/
theorem edgesParser_nonneg (m : Model ℚ) (line : List Char)
    (h : ∀ e ∈ m.vertex_index, 0 ≤ e) :
    ∀ e ∈ (EdgesParser_ m line).vertex_index, 0 ≤ e := by
  simp only [EdgesParser_]
  split
  · intro e he
    rw [List.mem_append] at he
    rcases he with he | he
    · exact h e he
    · refine cyclicEdges_nonneg _ ?_ e he
      intro a ha
      rw [List.mem_filterMap] at ha
      obtain ⟨t, _, ht⟩ := ha
      exact faceToken_nonneg t a ht
  · exact h

/-- `parseLine` preserves nonnegativity of the edge list. -/
theorem parseLine_nonneg (m : Model ℚ) (l : List Char)
    (h : ∀ e ∈ m.vertex_index, 0 ≤ e) :
    ∀ e ∈ (parseLine m l).vertex_index, 0 ≤ e := by
  unfold parseLine
  rcases l with _ | ⟨c0, _ | ⟨c1, rest⟩⟩
  · exact h
  · exact h
  · dsimp only
    split
    · exact h
    · split
      · unfold VertexParser_
        split <;> exact h
      · split
        · exact edgesParser_nonneg m _ h
        · exact h

/-- `parseLines` preserves nonnegativity of the edge list. -/
theorem parseLines_nonneg (ls : List (List Char)) :
    ∀ m : Model ℚ, (∀ e ∈ m.vertex_index, 0 ≤ e) →
      ∀ e ∈ (parseLines m ls).vertex_index, 0 ≤ e := by
  induction ls with
  | nil => exact fun m h => h
  | cons l ls ih =>
    intro m h
    unfold parseLines
    split
    · exact ih (parseLine m l) (parseLine_nonneg m l h)
    · exact h

/-- C1 (amended): after every load the parser guarantees, by construction
from the positive face tokens, that every stored edge endpoint is
nonnegative — but not that it is below the vertex count (see
`edge_bound_counterexample`). -/
theorem edge_indices_nonneg (src : Option (List (List Char))) (m : Model ℚ)
    (h : ∀ e ∈ m.vertex_index, 0 ≤ e) :
    ∀ e ∈ (Model.Parser src m).vertex_index, 0 ≤ e := by
  unfold Model.Parser
  split
  · exact h
  · match src with
    | none => exact h
    | some lines =>
      dsimp only
      split
      · exact parseLines_nonneg lines m h
      · exact parseLines_nonneg lines m h

/-- `floatVal` is the textbook value of a decimal literal:
`(ip + fp / 10 ^ fl) · 10 ^ e`. -/
theorem floatVal_eq (ip fp fl : Nat) (e : Int) :
    floatVal ip fp fl e = ((ip : ℚ) + (fp : ℚ) / 10 ^ fl) * (10 : ℚ) ^ e := by
  unfold floatVal
  rw [Rat.mkRat_eq_div]
  have hsplit : (10 : ℚ) ^ e = 10 ^ e.toNat / 10 ^ (-e).toNat := by
    have he : e = (e.toNat : ℤ) - ((-e).toNat : ℤ) := by omega
    conv_lhs => rw [he]
    rw [zpow_sub₀ (by norm_num : (10 : ℚ) ≠ 0), zpow_natCast, zpow_natCast]
  rw [hsplit]
  push_cast
  have h1 : (10 : ℚ) ^ fl ≠ 0 := by positivity
  have h2 : (10 : ℚ) ^ (-e).toNat ≠ 0 := by positivity
  field_simp

/-- Witness for C1 (amended) on the unbounded-index source. -/
theorem edge_indices_nonneg_witness :
    (∀ e ∈ initModel.vertex_index, 0 ≤ e) ∧
    ∀ e ∈ (Model.Parser (some oobSource) initModel).vertex_index, 0 ≤ e :=
  ⟨by decide, edge_indices_nonneg (some oobSource) initModel (by decide)⟩

/-- A whitespace character is neither a digit nor any of the special
characters of a float literal. -/
theorem space_not_special (c : Char) (h : isSpaceChar c = true) :
    Char.isDigit c = false ∧ c ≠ '.' ∧ c ≠ 'e' ∧ c ≠ 'E' ∧ c ≠ '+' ∧
      c ≠ '-' := by
  simp only [isSpaceChar, Bool.or_eq_true, beq_iff_eq] at h
  rcases h with ((((h | h) | h) | h) | h) | h <;> subst h <;> decide

/-- `takeWhile`/`dropWhile` over an appended list whose head (if any)
fails the predicate. -/
theorem takeWhile_dropWhile_append (p : Char → Bool) (l u : List Char)
    (hu : ∀ c u', u = c :: u' → p c = false) :
    (l ++ u).takeWhile p = l.takeWhile p ∧
      (l ++ u).dropWhile p = l.dropWhile p ++ u := by
  induction l with
  | nil =>
    cases u with
    | nil => simp
    | cons c u' =>
      have hc := hu c u' rfl
      simp [List.takeWhile_cons, List.dropWhile_cons, hc]
  | cons a l ih =>
    cases hpa : p a with
    | true =>
      simp [List.takeWhile_cons, List.dropWhile_cons, hpa, ih.1, ih.2]
    | false =>
      simp [List.takeWhile_cons, List.dropWhile_cons, hpa]

/-- `dropWhile` over an appended list whose first part wholly satisfies
the predicate. -/
theorem dropWhile_append_of_all (p : Char → Bool) (w x : List Char)
    (hw : ∀ c ∈ w, p c = true) :
    (w ++ x).dropWhile p = x.dropWhile p := by
  induction w with
  | nil => rfl
  | cons c w ih =>
    rw [List.cons_append, List.dropWhile_cons_of_pos (hw c (by simp))]
    exact ih (fun c2 hc2 => hw c2 (by simp [hc2]))

/-- If `u` is space-led, no head of `u` is a digit. -/
theorem spaceLed_head_not_digit (u : List Char) (hu : spaceLed u) :
    ∀ c u', u = c :: u' → Char.isDigit c = false := by
  intro c u' hcu
  rcases hu with rfl | ⟨c2, u2, hequ, hsp⟩
  · cases hcu
  · rw [hequ] at hcu
    injection hcu with hc _
    exact (space_not_special c (hc ▸ hsp)).1

/-- Extension of a complete `scanExpDigits` run by space-led content. -/
theorem scanExpDigits_extend (orig r u : List Char) (sign e : Int)
    (horig : orig ≠ []) (hu : spaceLed u)
    (h : scanExpDigits orig sign r = (e, [])) :
    scanExpDigits (orig ++ u) sign (r ++ u) = (e, u) := by
  rcases hu with rfl | hcons
  · simpa using h
  have htd := takeWhile_dropWhile_append Char.isDigit r u
    (spaceLed_head_not_digit u (Or.inr hcons))
  simp only [scanExpDigits] at h ⊢
  rw [htd.1, htd.2]
  split at h
  · rw [Prod.mk.injEq] at h
    exact absurd h.2 horig
  · rename_i hds
    rw [if_neg hds]
    rw [Prod.mk.injEq] at h
    rw [h.1, h.2]
    simp

/-- Extension of a complete `scanExpAfterE` run by space-led content. -/
theorem scanExpAfterE_extend (orig rest u : List Char) (e : Int)
    (horig : orig ≠ []) (hu : spaceLed u)
    (h : scanExpAfterE orig rest = (e, [])) :
    scanExpAfterE (orig ++ u) (rest ++ u) = (e, u) := by
  cases rest with
  | nil =>
    exfalso
    simp only [scanExpAfterE, scanExpDigits, List.takeWhile_nil,
      List.isEmpty_nil, if_true, Prod.mk.injEq] at h
    exact horig h.2
  | cons c r =>
    rw [List.cons_append]
    simp only [scanExpAfterE] at h ⊢
    by_cases h1 : c = '+'
    · rw [if_pos h1] at h ⊢
      exact scanExpDigits_extend orig r u 1 e horig hu h
    · rw [if_neg h1] at h ⊢
      by_cases h2 : c = '-'
      · rw [if_pos h2] at h ⊢
        exact scanExpDigits_extend orig r u (-1) e horig hu h
      · rw [if_neg h2] at h ⊢
        rw [← List.cons_append]
        exact scanExpDigits_extend orig (c :: r) u 1 e horig hu h

/-- Extension of a complete `scanExp` run by space-led content. -/
theorem scanExp_extend (t u : List Char) (e : Int) (hu : spaceLed u)
    (h : scanExp t = (e, [])) : scanExp (t ++ u) = (e, u) := by
  cases t with
  | nil =>
    have he : e = 0 := by
      simp only [scanExp, Prod.mk.injEq] at h
      exact h.1.symm
    subst he
    rcases hu with rfl | ⟨c, u', rfl, hsp⟩
    · rfl
    · have hspec := space_not_special c hsp
      rw [List.nil_append]
      simp only [scanExp]
      rw [if_neg (by simp [hspec.2.2.1, hspec.2.2.2.1])]
  | cons c rest =>
    rw [List.cons_append]
    simp only [scanExp] at h ⊢
    by_cases hc : c = 'e' ∨ c = 'E'
    · rw [if_pos hc] at h ⊢
      rw [← List.cons_append]
      exact scanExpAfterE_extend (c :: rest) rest u e (by simp) hu h
    · rw [if_neg hc] at h
      rw [Prod.mk.injEq] at h
      exact absurd h.2 (by simp)

/-- Extension of a complete `scanNoFraction` run by space-led content. -/
theorem scanNoFraction_extend (ip r1 u : List Char) (v : ℚ) (hu : spaceLed u)
    (h : scanNoFraction ip r1 = some (v, [])) :
    scanNoFraction ip (r1 ++ u) = some (v, u) := by
  simp only [scanNoFraction] at h ⊢
  split at h
  · cases h
  · rename_i hip
    rw [if_neg hip]
    rw [Option.some.injEq, Prod.mk.injEq] at h
    have hexp : scanExp r1 = ((scanExp r1).1, []) := by
      conv_lhs => rw [show scanExp r1 = ((scanExp r1).1, (scanExp r1).2) from rfl]
      rw [h.2]
    rw [scanExp_extend r1 u (scanExp r1).1 hu hexp]
    rw [Option.some.injEq, Prod.mk.injEq]
    exact ⟨h.1, rfl⟩

/-- Extension of a complete `scanUnsignedFloat` run by space-led content. -/
theorem scanUnsignedFloat_extend (t u : List Char) (v : ℚ) (hu : spaceLed u)
    (h : scanUnsignedFloat t = some (v, [])) :
    scanUnsignedFloat (t ++ u) = some (v, u) := by
  rcases hu with rfl | hcons
  · simpa using h
  have hu' : spaceLed u := Or.inr hcons
  obtain ⟨cu, u', hue, hsp⟩ := hcons
  have hnotdig : ∀ c u2, u = c :: u2 → Char.isDigit c = false :=
    spaceLed_head_not_digit u hu'
  have htd := takeWhile_dropWhile_append Char.isDigit t u hnotdig
  simp only [scanUnsignedFloat] at h ⊢
  rw [htd.1, htd.2]
  cases hdd : t.dropWhile Char.isDigit with
  | nil =>
    rw [hdd] at h
    rw [List.nil_append]
    have hres := scanNoFraction_extend (t.takeWhile Char.isDigit) [] u v hu' h
    rw [List.nil_append] at hres
    rw [hue] at hres ⊢
    have hne : ¬ (cu = '.') := (space_not_special cu hsp).2.1
    dsimp only
    rw [if_neg hne]
    exact hres
  | cons c r2 =>
    rw [hdd] at h
    rw [List.cons_append]
    dsimp only at h ⊢
    by_cases hc : c = '.'
    · rw [if_pos hc] at h ⊢
      have htd2 := takeWhile_dropWhile_append Char.isDigit r2 u hnotdig
      rw [htd2.1, htd2.2]
      split at h
      · cases h
      · rename_i hemp
        rw [if_neg hemp]
        rw [Option.some.injEq, Prod.mk.injEq] at h
        have hexp : scanExp (r2.dropWhile Char.isDigit) =
            ((scanExp (r2.dropWhile Char.isDigit)).1, []) := by
          conv_lhs =>
            rw [show scanExp (r2.dropWhile Char.isDigit) =
              ((scanExp (r2.dropWhile Char.isDigit)).1,
                (scanExp (r2.dropWhile Char.isDigit)).2) from rfl]
          rw [h.2]
        rw [scanExp_extend _ u _ hu' hexp]
        rw [Option.some.injEq, Prod.mk.injEq]
        exact ⟨h.1, rfl⟩
    · rw [if_neg hc] at h ⊢
      have hres := scanNoFraction_extend (t.takeWhile Char.isDigit) (c :: r2)
        u v hu' h
      rw [List.cons_append] at hres
      exact hres

/-- Extension of a complete `scanSignedFloat` run by space-led content. -/
theorem scanSignedFloat_extend (t u : List Char) (v : ℚ) (hu : spaceLed u)
    (h : scanSignedFloat t = some (v, [])) :
    scanSignedFloat (t ++ u) = some (v, u) := by
  cases t with
  | nil =>
    rw [show scanSignedFloat [] = none from rfl] at h
    cases h
  | cons c r =>
    rw [List.cons_append]
    simp only [scanSignedFloat] at h ⊢
    by_cases h1 : c = '+'
    · rw [if_pos h1] at h ⊢
      exact scanUnsignedFloat_extend r u v hu h
    · rw [if_neg h1] at h ⊢
      by_cases h2 : c = '-'
      · rw [if_pos h2] at h ⊢
        rw [Option.map_eq_some'] at h
        obtain ⟨⟨v0, r0⟩, hv0, hmap⟩ := h
        rw [Prod.mk.injEq] at hmap
        dsimp at hmap
        have hr0 : r0 = [] := hmap.2
        subst hr0
        rw [Option.map_eq_some']
        refine ⟨(v0, u), scanUnsignedFloat_extend r u v0 hu hv0, ?_⟩
        rw [Prod.mk.injEq]
        exact ⟨hmap.1, rfl⟩
      · rw [if_neg h2] at h ⊢
        rw [← List.cons_append]
        exact scanUnsignedFloat_extend (c :: r) u v hu h

/-- A successful `scanSignedFloat` input starts with a non-whitespace
character. -/
theorem scanSignedFloat_head_not_space (t : List Char) (v : ℚ)
    (r : List Char) (h : scanSignedFloat t = some (v, r)) :
    ∃ c t', t = c :: t' ∧ isSpaceChar c = false := by
  cases t with
  | nil =>
    rw [show scanSignedFloat [] = none from rfl] at h
    cases h
  | cons c t' =>
    refine ⟨c, t', rfl, ?_⟩
    cases hsp : isSpaceChar c with
    | false => rfl
    | true =>
      exfalso
      have hspec := space_not_special c hsp
      simp only [scanSignedFloat] at h
      rw [if_neg hspec.2.2.2.2.1, if_neg hspec.2.2.2.2.2] at h
      simp only [scanUnsignedFloat] at h
      rw [List.takeWhile_cons_of_neg (by simp [hspec.1]),
        List.dropWhile_cons_of_neg (by simp [hspec.1])] at h
      dsimp only at h
      rw [if_neg hspec.2.1] at h
      simp only [scanNoFraction, List.takeWhile_nil, List.isEmpty_nil,
        if_true] at h
      cases h

/-- Extension of one `%lf` conversion: leading whitespace `w`, a complete
float literal `t` and space-led extra content `u`. -/
theorem scanFloat_extend (w t u : List Char) (v : ℚ)
    (hw : ∀ c ∈ w, isSpaceChar c = true)
    (h : scanSignedFloat t = some (v, [])) (hu : spaceLed u) :
    scanFloat (w ++ (t ++ u)) = some (v, u) := by
  unfold scanFloat
  rw [dropWhile_append_of_all isSpaceChar w (t ++ u) hw]
  obtain ⟨c, t', rfl, hc⟩ := scanSignedFloat_head_not_space t v [] h
  rw [List.cons_append, List.dropWhile_cons_of_neg (by simp [hc])]
  rw [← List.cons_append]
  exact scanSignedFloat_extend (c :: t') u v hu h

/-- C2 counterexample: the line `"v 1 2 3 4"` does not match "exactly
three whitespace-separated numbers with nothing else", yet `VertexParser_`
appends `1, 2, 3` and leaves the error code untouched instead of failing
with `kIncorrectData`. -/
theorem vertex_exact_counterexample :
    specVertexExact extraVertexLine = false ∧
    (VertexParser_ initModel extraVertexLine).vertex_coord = [1, 2, 3] ∧
    (VertexParser_ initModel extraVertexLine).error_code = kNoError := by
  refine ⟨by decide, by decide, by decide⟩

/-- C2 (amended): a vertex line consisting of `v`, three whitespace-
separated float literals and then nothing or whitespace-led extra content
appends exactly the three scanned numbers with no error — the extra
content is ignored, not rejected; and whenever the three-float scan fails,
the parser sets `kIncorrectData` and leaves the buffer unchanged. -/
theorem vertex_line_spec (m : Model ℚ) (line w0 t1 w1 t2 w2 t3 u : List Char)
    (v1 v2 v3 : ℚ)
    (hw0 : ∀ c ∈ w0, isSpaceChar c = true)
    (hw1 : ∀ c ∈ w1, isSpaceChar c = true) (hw1n : w1 ≠ [])
    (hw2 : ∀ c ∈ w2, isSpaceChar c = true) (hw2n : w2 ≠ [])
    (h1 : scanSignedFloat t1 = some (v1, []))
    (h2 : scanSignedFloat t2 = some (v2, []))
    (h3 : scanSignedFloat t3 = some (v3, []))
    (hu : spaceLed u) :
    VertexParser_ m
        ('v' :: (w0 ++ (t1 ++ (w1 ++ (t2 ++ (w2 ++ (t3 ++ u))))))) =
      { m with vertex_coord := m.vertex_coord ++ [v1, v2, v3] } ∧
    (scanVertexLine line = none →
      VertexParser_ m line = { m with error_code := kIncorrectData }) := by
  constructor
  · have hled : ∀ w rest : List Char, w ≠ [] →
        (∀ c ∈ w, isSpaceChar c = true) → spaceLed (w ++ rest) := by
      intro w rest hn hws
      rcases w with _ | ⟨c, w'⟩
      · exact absurd rfl hn
      · exact Or.inr ⟨c, w' ++ rest, rfl, hws c (by simp)⟩
    have hs3 := scanFloat_extend w2 t3 u v3 hw2 h3 hu
    have hs2 := scanFloat_extend w1 t2 (w2 ++ (t3 ++ u)) v2 hw1 h2
      (hled w2 (t3 ++ u) hw2n hw2)
    have hs1 := scanFloat_extend w0 t1 (w1 ++ (t2 ++ (w2 ++ (t3 ++ u)))) v1
      hw0 h1 (hled w1 (t2 ++ (w2 ++ (t3 ++ u))) hw1n hw1)
    unfold VertexParser_
    simp only [scanVertexLine, if_pos rfl, hs1, hs2, hs3, if_true]
  · intro h
    simp [VertexParser_, h]

/-- Witness for C2 (amended) at the concrete line `"v 1 2 3 4"`. -/
theorem vertex_line_spec_witness :
    scanSignedFloat ("1".toList) = some (1, []) ∧
    VertexParser_ initModel
        ('v' :: ((" ".toList) ++ (("1".toList) ++ ((" ".toList) ++
          (("2".toList) ++ ((" ".toList) ++ (("3".toList) ++
            (" 4".toList)))))))) =
      { initModel with vertex_coord := [1, 2, 3] } ∧
    scanVertexLine badVertexLine = none ∧
    VertexParser_ initModel badVertexLine =
      { initModel with error_code := kIncorrectData } :=
  ⟨by decide,
    (vertex_line_spec initModel [] (" ".toList) ("1".toList) (" ".toList)
        ("2".toList) (" ".toList) ("3".toList) (" 4".toList) 1 2 3
        (by decide) (by decide) (by decide) (by decide) (by decide)
        (by decide) (by decide) (by decide)
        (Or.inr ⟨' ', ['4'], rfl, by decide⟩)).1,
    by decide,
    (vertex_line_spec initModel badVertexLine (" ".toList) ("1".toList)
        (" ".toList) ("2".toList) (" ".toList) ("3".toList) (" 4".toList)
        1 2 3 (by decide) (by decide) (by decide) (by decide) (by decide)
        (by decide) (by decide) (by decide)
        (Or.inr ⟨' ', ['4'], rfl, by decide⟩)).2 (by decide)⟩

end S21
